import Mathlib

/-!
# eCash wallet service: a shallow embedding of `src/services/wallet.js`

The module keeps three pieces of module-level state (`walletState`, `ws`,
`balanceUpdateCallback`) and talks to four collaborators: `localStorage`,
the `bip39` phrase library, the `ecash-lib` key/script/transaction helpers and
the Chronik indexer client.  Here

* the module state is the record `World`, threaded explicitly through every
  operation;
* the pure collaborators (`bip39`, `ecash-lib`) are the fields of `Deps`;
* every answer of the network (a UTXO query, a broadcast, a transport call
  that may throw) is an explicit argument of the operation that consumes it;
* every call that leaves the module (an indexer query, a broadcast, the
  balance callback) and every entry into `updateBalance` is appended to
  `World.log`, so that "how often" and "in which order" are statements about
  a list.

A thrown JavaScript exception is the `Except.error` branch of the result; the
world returned next to it is the module state at the moment of the throw.

Satoshi amounts are whole numbers.  `utxo.sats` is a non-negative integer
(a `bigint`), and `BigInt(utxo.sats)` is that integer.  `updateBalance`
instead adds JavaScript `Number`s: `parseInt(utxo.sats)` and every `+` round
to the nearest double (`toNumber`), which is exact up to `2^53` only.  A
`Number` field such as `walletState.balance` holds a natural number: a finite
value stands for itself and `numberInfinity = 2^1024`, which no finite double
reaches, stands for `Infinity`.  The `amount` argument of `sendTransaction`
is an integer number of satoshis.
-/

namespace EcashWallet

/-! ## Data model -/

/-- A `Uint8Array`. -/
abbrev Bytes := List Nat

/-- One entry of `utxos.utxos`.  `token` is absent (`none`) on a pure-XEC
output; `!utxo.token` is `token.isNone`. -/
structure Utxo where
  txid : String
  outIdx : Nat
  sats : Nat
  token : Option String
  deriving DecidableEq, Repr

/-- The object `scriptEndpoint.utxos()` resolves to; its `utxos` field may be
missing, which the source guards against. -/
structure ScriptUtxos where
  utxos : Option (List Utxo)
  deriving DecidableEq, Repr

/-- How `scriptEndpoint.utxos()` settles. -/
inductive QueryOutcome where
  | ok (r : ScriptUtxos)
  | failed (msg : String)
  deriving DecidableEq, Repr

/-- Result of `Promise.race([scriptEndpoint.utxos(), timeoutPromise])`. -/
inductive RacedOutcome where
  | settled (o : QueryOutcome)
  | timedOut
  deriving DecidableEq, Repr

/-- The errors the module throws itself, by message, and the errors thrown by
a collaborator. -/
inductive WalletError where
  /-- Message `'Wallet not initialized'`. -/
  | walletNotInitialized
  /-- Message `'Amount must be greater than 0'`. -/
  | amountNotPositive
  /-- Message `'Insufficient funds'` (pre-check against the cached balance). -/
  | insufficientFunds
  /-- Message `'No UTXOs available'`. -/
  | noUtxos
  /-- Message `'No XEC UTXOs available (you only have UTXOs with tokens)...'`. -/
  | noXecUtxos
  /-- Message `'Insufficient XEC funds. You need ~need satoshis but only have have_ ...'`. -/
  | insufficientXecFunds (need have_ : Int)
  /-- Message `'Invalid mnemonic'` (loadWalletFromMnemonic). -/
  | invalidMnemonic
  /-- Message `'Invalid mnemonic. Verify that the 12 words are correct.'` (importWallet). -/
  | invalidMnemonicImport
  /-- Anything thrown by `bip39`, `ecash-lib` or the Chronik client. -/
  | collaborator (msg : String)
  deriving DecidableEq, Repr

/-- The module-level `walletState` object.  The initial object literal has no
`pkHash` property at all, which reads as `undefined`.  `balance` is a
`Number`: a finite value stands for itself, `2^1024` for `Infinity`. -/
structure WalletState where
  mnemonic : Option String
  privateKey : Option Bytes
  publicKey : Option Bytes
  pkHash : Option Bytes
  address : Option String
  balance : Nat
  initialized : Bool
  deriving DecidableEq, Repr

/-- Calls that leave the module, in program order. -/
inductive Event where
  /-- Entry into `updateBalance`. -/
  | updateBalanceCall
  /-- Call `chronik.script('p2pkh', pkHashHex).utxos()`. -/
  | utxosQuery (pkHashHex : String)
  /-- Call `chronik.broadcastTx(rawTx)`. -/
  | broadcast (rawTx : String)
  /-- Call `balanceUpdateCallback(walletState.balance)`. -/
  | callback (cb : Nat) (balance : Nat)
  deriving DecidableEq, Repr

/-- The whole module state: `walletState`, `localStorage[STORAGE_KEY]`, `ws`,
`balanceUpdateCallback`, plus the bookkeeping of the transports handed out by
`chronik.ws` (`liveTransports`: created and not closed) and the call log. -/
structure World where
  wallet : WalletState
  storage : Option String
  ws : Option Nat
  balanceUpdateCallback : Option Nat
  liveTransports : List Nat
  nextTransport : Nat
  log : List Event
  deriving DecidableEq, Repr

/-- One element of the `inputs` array handed to `TxBuilder`: the outpoint, the
`signData` (`sats`, `outputScript`) and the keys of the `P2PKHSignatory`. -/
structure TxInput where
  txid : String
  outIdx : Nat
  sats : Int
  outputScript : Bytes
  privateKey : Option Bytes
  publicKey : Option Bytes
  deriving DecidableEq, Repr

/-- One element of the `outputs` array: a fixed payment, or a bare script,
which `TxBuilder` treats as the change output. -/
inductive TxOutput where
  | pay (sats : Int) (script : Bytes)
  | change (script : Bytes)
  deriving DecidableEq, Repr

/-- The argument of `new TxBuilder(...)`. -/
structure TxRequest where
  version : Nat
  inputs : List TxInput
  outputs : List TxOutput
  deriving DecidableEq, Repr

/-- The pure collaborators. -/
structure Deps where
  /-- Function `bip39.validateMnemonic`. -/
  validateMnemonic : String → Bool
  /-- Function `bip39.mnemonicToSeed`. -/
  mnemonicToSeed : String → Except String Bytes
  /-- Function `ecc.derivePubkey`. -/
  derivePubkey : Bytes → Except String Bytes
  /-- Function `shaRmd160`. -/
  shaRmd160 : Bytes → Except String Bytes
  /-- Function `Script.p2pkh`. -/
  p2pkh : Bytes → Bytes
  /-- Expression `Address.fromScript(script).toString()`. -/
  addressOfScript : Bytes → Except String String
  /-- Function `Script.fromAddress`. -/
  scriptFromAddress : String → Except String Bytes
  /-- Function `toHex`. -/
  toHex : Bytes → String
  /-- The chain `toHex(txBuilder.sign(feePerKb, dustSats).ser())`: the signer
  computes the fee from the size and drops a change output below dust. -/
  signAndSerialize : TxRequest → Int → Int → Except String String

/-- The module state right after the module is loaded. -/
def initialWalletState : WalletState :=
  { mnemonic := none, privateKey := none, publicKey := none, pkHash := none,
    address := none, balance := 0, initialized := false }

/-- The world right after the module is loaded, given what `localStorage`
holds under `STORAGE_KEY`. -/
def initialWorld (stored : Option String) : World :=
  { wallet := initialWalletState, storage := stored, ws := none,
    balanceUpdateCallback := none, liveTransports := [], nextTransport := 0, log := [] }

/-- JavaScript truthiness of a value that is a string, `null` or `undefined`. -/
def truthyStr : Option String → Bool
  | some s => s != ""
  | none => false

/-- Lift a collaborator result into the module's error type. -/
def liftDep {α : Type} : Except String α → Except WalletError α
  | .ok a => .ok a
  | .error m => .error (.collaborator m)

/-! ## `updateBalance` -/

/-- The code of `Infinity` in a `Number` field. -/
def numberInfinity : Nat := 2 ^ 1024

/-- The number of low bits a natural number loses when it is cut to 53
significant bits: the least `s` with `n / 2^s < 2^53`.  The first argument
bounds the search and `n` itself is enough. -/
def excessBits : Nat → Nat → Nat
  | 0, _ => 0
  | fuel + 1, n => if n < 2 ^ 53 then 0 else excessBits fuel (n / 2) + 1

/-- The `Number` nearest to a non-negative integer: IEEE-754 binary64 with
53 significant bits, round to nearest, ties to even, and `Infinity` once the
rounded value would need an exponent above that of the largest finite
double, `(2^53 - 1) * 2^971`. -/
def toNumber (n : Nat) : Nat :=
  if n < 2 ^ 53 then n
  else
    let shift := excessBits n n
    let q := n / 2 ^ shift
    let r := n % 2 ^ shift
    let half := 2 ^ (shift - 1)
    let q := if r > half ∨ (r = half ∧ q % 2 = 1) then q + 1 else q
    if shift > 971 ∨ (shift = 971 ∧ q = 2 ^ 53) then numberInfinity else q * 2 ^ shift

/-- The call `parseInt(utxo.sats)` on a `bigint`: its decimal digits are read
back as a `Number`. -/
def parseInt (sats : Nat) : Nat :=
  toNumber sats

/-- The operator `+` on two `Number`s that hold non-negative integers or
`Infinity`: the exact sum, rounded. -/
def numberAdd (a b : Nat) : Nat :=
  toNumber (a + b)

/-- The callback of `xecOnlyUtxos.reduce`, started from `0`:
`sum + parseInt(utxo.sats)`. -/
def sumSats (us : List Utxo) : Nat :=
  us.foldl (fun sum utxo => numberAdd sum (parseInt utxo.sats)) 0

/-- The filter `utxos.utxos.filter(utxo => !utxo.token)`. -/
def xecOnly (us : List Utxo) : List Utxo :=
  us.filter (fun utxo => utxo.token.isNone)

/-- Lines 188-198: `totalBalance` from the resolved response. -/
def totalBalanceOf (r : ScriptUtxos) : Nat :=
  match r.utxos with
  | some us => if us.length > 0 then sumSats (xecOnly us) else 0
  | none => 0

/-- Store a balance in `walletState.balance`. -/
def World.setBalance (s : World) (b : Nat) : World :=
  { s with wallet := { s.wallet with balance := b } }

/-- Append to the call log. -/
def World.emit (s : World) (e : Event) : World :=
  { s with log := s.log ++ [e] }

/-- The function `updateBalance()`.  It never throws: the guard's own
`throw new Error('Wallet not initialized')` sits inside the outer `try`, whose
`catch` stores and returns `0`; a failed or timed-out query is caught by the
inner `catch`, which does the same. -/
def updateBalance (D : Deps) (q : RacedOutcome) (s : World) : World × Nat :=
  let s := s.emit .updateBalanceCall
  if !truthyStr s.wallet.address then
    -- thrown at line 163, caught at line 209
    (s.setBalance 0, 0)
  else
    match s.wallet.pkHash with
    | none =>
      -- `toHex(undefined)` throws, caught at line 203
      (s.setBalance 0, 0)
    | some pkHash =>
      let s := s.emit (.utxosQuery (D.toHex pkHash))
      match q with
      | .settled (.ok r) =>
        let totalBalance := totalBalanceOf r
        (s.setBalance totalBalance, totalBalance)
      | .settled (.failed _) => (s.setBalance 0, 0)
      | .timedOut => (s.setBalance 0, 0)

/-! ## `sendTransaction` -/

/-- The constant `manualFeeEstimate = 1000n`, the margin for UTXO selection. -/
def manualFeeEstimate : Int := 1000

/-- The constant `feePerKb = 1000n`. -/
def feePerKb : Int := 1000

/-- The constant `dustSats = 546n`. -/
def dustSats : Int := 546

/-- The `for (const utxo of xecOnlyUtxos)` loop of lines 260-266, as a
function of the rest of the list, `selectedUtxos` and `totalInput`;
`target` is `BigInt(amount) + manualFeeEstimate`. -/
def selectLoop (target : Int) : List Utxo → List Utxo → Int → List Utxo × Int
  | [], selectedUtxos, totalInput => (selectedUtxos, totalInput)
  | utxo :: rest, selectedUtxos, totalInput =>
    let selectedUtxos := selectedUtxos ++ [utxo]
    let totalInput := totalInput + (utxo.sats : Int)
    if totalInput ≥ target then (selectedUtxos, totalInput)
    else selectLoop target rest selectedUtxos totalInput

/-- Lines 241-270: filter out token UTXOs, refuse an empty remainder, run the
selection loop and refuse a total below `amount + manualFeeEstimate`. -/
def selectInputs (amount : Int) (utxos : List Utxo) : Except WalletError (List Utxo) :=
  let xecOnlyUtxos := xecOnly utxos
  if xecOnlyUtxos.length = 0 then .error .noXecUtxos
  else
    let r := selectLoop (amount + manualFeeEstimate) xecOnlyUtxos [] 0
    if r.2 < amount + manualFeeEstimate then
      .error (.insufficientXecFunds (amount + manualFeeEstimate) r.2)
    else .ok r.1

/-- Lines 272-307: the `TxBuilder` argument built from the selected UTXOs. -/
def buildRequest (D : Deps) (w : WalletState) (pkHash : Bytes) (toScript : Bytes)
    (amount : Int) (selectedUtxos : List Utxo) : TxRequest :=
  let walletP2pkh := D.p2pkh pkHash
  { version := 2
    inputs := selectedUtxos.map (fun utxo =>
      { txid := utxo.txid, outIdx := utxo.outIdx, sats := (utxo.sats : Int),
        outputScript := walletP2pkh, privateKey := w.privateKey, publicKey := w.publicKey })
    outputs := [.pay amount toScript, .change walletP2pkh] }

/-- Lines 272-321: transaction assembly, signing, broadcast and the balance
refresh that follows a successful broadcast.  `b` is the answer of
`chronik.broadcastTx` (the `txid` or a rejection), `q2` the answer to the
query of the final `updateBalance`. -/
def assembleAndSend (D : Deps) (toAddress : String) (amount : Int) (pkHash : Bytes)
    (selectedUtxos : List Utxo) (b : Except String String) (q2 : RacedOutcome)
    (s : World) : World × Except WalletError String :=
  match D.scriptFromAddress toAddress with
  | .error m => (s, .error (.collaborator m))
  | .ok toScript =>
    match D.signAndSerialize (buildRequest D s.wallet pkHash toScript amount selectedUtxos)
        feePerKb dustSats with
    | .error m => (s, .error (.collaborator m))
    | .ok rawTx =>
      let s := s.emit (.broadcast rawTx)
      match b with
      | .error m => (s, .error (.collaborator m))
      | .ok txid => ((updateBalance D q2 s).1, .ok txid)

/-- The function `sendTransaction(toAddress, amount)`.  `q` is the answer to the
UTXO query of line 235 (which has no timeout). -/
def sendTransaction (D : Deps) (toAddress : String) (amount : Int) (q : QueryOutcome)
    (b : Except String String) (q2 : RacedOutcome) (s : World) :
    World × Except WalletError String :=
  if !s.wallet.initialized then (s, .error .walletNotInitialized)
  else if amount ≤ 0 then (s, .error .amountNotPositive)
  else if amount > (s.wallet.balance : Int) then (s, .error .insufficientFunds)
  else
    match s.wallet.pkHash with
    | none => (s, .error (.collaborator "toHex"))
    | some pkHash =>
      let s := s.emit (.utxosQuery (D.toHex pkHash))
      match q with
      | .failed m => (s, .error (.collaborator m))
      | .ok utxosResponse =>
        match utxosResponse.utxos with
        | none => (s, .error .noUtxos)
        | some utxos =>
          if utxos.length = 0 then (s, .error .noUtxos)
          else
            match selectInputs amount utxos with
            | .error e => (s, .error e)
            | .ok selectedUtxos =>
              assembleAndSend D toAddress amount pkHash selectedUtxos b q2 s

/-! ## Loading, creating and importing a wallet -/

/-- Lines 99-136 up to the assignment: validate the phrase, derive the keys
and the address, and build the object that is assigned to `walletState`. -/
def deriveWalletState (D : Deps) (mnemonic : String) : Except WalletError WalletState :=
  if !D.validateMnemonic mnemonic then .error .invalidMnemonic
  else do
    let seed ← liftDep (D.mnemonicToSeed mnemonic)
    let privateKey := seed.take 32
    let publicKey ← liftDep (D.derivePubkey privateKey)
    let pkHash ← liftDep (D.shaRmd160 publicKey)
    let script := D.p2pkh pkHash
    let address ← liftDep (D.addressOfScript script)
    pure { mnemonic := some mnemonic, privateKey := some privateKey,
           publicKey := some publicKey, pkHash := some pkHash,
           address := some address, balance := 0, initialized := true }

/-- The function `loadWalletFromMnemonic(mnemonic)`: every throw happens before
`walletState` is assigned; the initial `updateBalance` follows the assignment. -/
def loadWalletFromMnemonic (D : Deps) (mnemonic : String) (q : RacedOutcome) (s : World) :
    World × Except WalletError WalletState :=
  match deriveWalletState D mnemonic with
  | .error e => (s, .error e)
  | .ok w =>
    let s := { s with wallet := w }
    let s := (updateBalance D q s).1
    (s, .ok s.wallet)

/-- The function `initializeWallet()`: load the stored phrase if
`localStorage.getItem(STORAGE_KEY)` is truthy. -/
def initializeWallet (D : Deps) (q : RacedOutcome) (s : World) :
    World × Except WalletError WalletState :=
  match s.storage with
  | some savedMnemonic =>
    if truthyStr (some savedMnemonic) then loadWalletFromMnemonic D savedMnemonic q s
    else (s, .ok s.wallet)
  | none => (s, .ok s.wallet)

/-- The function `createNewWallet()`; `generated` is what
`bip39.generateMnemonic(128)` returns or throws. -/
def createNewWallet (D : Deps) (generated : Except String String) (q : RacedOutcome)
    (s : World) : World × Except WalletError WalletState :=
  match generated with
  | .error m => (s, .error (.collaborator m))
  | .ok mnemonic =>
    match loadWalletFromMnemonic D mnemonic q s with
    | (s, .error e) => (s, .error e)
    | (s, .ok _) =>
      let s := { s with storage := some mnemonic }
      (s, .ok s.wallet)

/-- The characters matched by `\s` and removed by `String.prototype.trim`. -/
def isJsSpace (c : Char) : Bool :=
  let n := c.toNat
  n == 0x09 || n == 0x0A || n == 0x0B || n == 0x0C || n == 0x0D || n == 0x20 ||
  n == 0xA0 || n == 0x1680 || (0x2000 ≤ n && n ≤ 0x200A) || n == 0x2028 ||
  n == 0x2029 || n == 0x202F || n == 0x205F || n == 0x3000 || n == 0xFEFF

/-- The method `trim()` on the characters of a string. -/
def jsTrim (cs : List Char) : List Char :=
  ((cs.dropWhile isJsSpace).reverse.dropWhile isJsSpace).reverse

/-- The call `replace(/\s+/g, ' ')`: every maximal run of white space becomes
one space.  `inRun` says that the previous character was white space. -/
def collapseSpaces (inRun : Bool) : List Char → List Char
  | [] => []
  | c :: cs =>
    if isJsSpace c then
      if inRun then collapseSpaces true cs else ' ' :: collapseSpaces true cs
    else c :: collapseSpaces false cs

/-- Line 336: `mnemonic.trim().replace(/\s+/g, ' ')`. -/
def cleanMnemonic (mnemonic : String) : String :=
  String.mk (collapseSpaces false (jsTrim mnemonic.data))

/-- The function `importWallet(mnemonic)`. -/
def importWallet (D : Deps) (mnemonic : String) (q : RacedOutcome) (s : World) :
    World × Except WalletError WalletState :=
  let cleaned := cleanMnemonic mnemonic
  if !D.validateMnemonic cleaned then (s, .error .invalidMnemonicImport)
  else
    match loadWalletFromMnemonic D cleaned q s with
    | (s, .error e) => (s, .error e)
    | (s, .ok _) =>
      let s := { s with storage := some cleaned }
      (s, .ok s.wallet)

/-- The function `onBalanceUpdate(callback)`: the last registration wins. -/
def onBalanceUpdate (callback : Option Nat) (s : World) : World :=
  { s with balanceUpdateCallback := callback }

/-! ## The WebSocket subscription -/

/-- The function `stopWebSocketSubscription()`.  `unsubscribeOk` and `closeOk`
tell whether `ws.unsubscribeFromScript` and `ws.close` return or throw; a throw
is caught at line 533, after which neither `ws.close()` (if it was the
unsubscribe that threw) nor `ws = null` has run. -/
def stopWebSocketSubscription (unsubscribeOk closeOk : Bool) (s : World) : World :=
  match s.ws with
  | none => s
  | some handle =>
    if s.wallet.pkHash.isSome && !unsubscribeOk then s
    else if !closeOk then s
    else { s with liveTransports := s.liveTransports.erase handle, ws := none }

/-- The function `startWebSocketSubscription()`.  The first two flags are
consumed by the nested `stopWebSocketSubscription()`; `openOk`, `subscribeOk`
and `blocksOk` tell whether `ws.waitForOpen`, `ws.subscribeToScript` and
`ws.subscribeToBlocks` succeed.  `chronik.ws(...)` hands out a fresh
transport, which is live from then on. -/
def startWebSocketSubscription (unsubscribeOk closeOk openOk subscribeOk blocksOk : Bool)
    (s : World) : World × Bool :=
  if !s.wallet.initialized || !s.wallet.pkHash.isSome then (s, false)
  else
    let s := if s.ws.isSome then stopWebSocketSubscription unsubscribeOk closeOk s else s
    let handle := s.nextTransport
    let s := { s with ws := some handle, liveTransports := s.liveTransports ++ [handle],
                      nextTransport := handle + 1 }
    if !openOk then (s, false)
    else if !subscribeOk then (s, false)
    else
      -- a failing `subscribeToBlocks` is logged and ignored
      let _ := blocksOk
      (s, true)

/-- The body shared by the three branches of `onMessage`:
`await updateBalance()` and then, if a callback is registered,
`balanceUpdateCallback(walletState.balance)`. -/
def refreshAndNotify (D : Deps) (q : RacedOutcome) (s : World) : World :=
  let s := (updateBalance D q s).1
  match s.balanceUpdateCallback with
  | some cb => s.emit (.callback cb s.wallet.balance)
  | none => s

/-- The `onMessage` handler of lines 412-463: three `if` statements in a row,
each comparing `msg.msgType` with `===`; `none` stands for a missing
`msgType`.  `q1`, `q2`, `q3` answer the query of the respective branch. -/
def onMessage (D : Deps) (msgType : Option String) (q1 q2 q3 : RacedOutcome) (s : World) :
    World :=
  let s := if msgType = some "TX_ADDED_TO_MEMPOOL" ∨ msgType = some "TX_CONFIRMED"
    then refreshAndNotify D q1 s else s
  let s := if msgType = some "TX_FINALIZED" then refreshAndNotify D q2 s else s
  let s := if msgType = some "BLK_CONNECTED" ∨ msgType = some "BLK_FINALIZED"
    then refreshAndNotify D q3 s else s
  s

/-! ## Sequences of calls -/

/-- One call of an exported operation, or one delivered message, together with
the answers of the environment it consumes. -/
inductive Op where
  | initializeWallet (q : RacedOutcome)
  | createNewWallet (generated : Except String String) (q : RacedOutcome)
  | loadWalletFromMnemonic (mnemonic : String) (q : RacedOutcome)
  | importWallet (mnemonic : String) (q : RacedOutcome)
  | updateBalance (q : RacedOutcome)
  | sendTransaction (toAddress : String) (amount : Int) (q : QueryOutcome)
      (b : Except String String) (q2 : RacedOutcome)
  | onBalanceUpdate (callback : Option Nat)
  | startWebSocketSubscription (unsubscribeOk closeOk openOk subscribeOk blocksOk : Bool)
  | stopWebSocketSubscription (unsubscribeOk closeOk : Bool)
  | onMessage (msgType : Option String) (q1 q2 q3 : RacedOutcome)

/-- The module state after one call; a thrown error leaves the state of the
moment of the throw. -/
def step (D : Deps) (s : World) : Op → World
  | .initializeWallet q => (initializeWallet D q s).1
  | .createNewWallet g q => (createNewWallet D g q s).1
  | .loadWalletFromMnemonic m q => (loadWalletFromMnemonic D m q s).1
  | .importWallet m q => (importWallet D m q s).1
  | .updateBalance q => (updateBalance D q s).1
  | .sendTransaction dest amount q b q2 => (sendTransaction D dest amount q b q2 s).1
  | .onBalanceUpdate cb => onBalanceUpdate cb s
  | .startWebSocketSubscription u c o sb bl => (startWebSocketSubscription u c o sb bl s).1
  | .stopWebSocketSubscription u c => stopWebSocketSubscription u c s
  | .onMessage t q1 q2 q3 => onMessage D t q1 q2 q3 s

/-- The module state after a sequence of calls. -/
def run (D : Deps) (s : World) (ops : List Op) : World :=
  ops.foldl (step D) s

/-- A stand-in for the collaborators, used to evaluate the model on concrete
inputs: a phrase is valid when it holds exactly eleven spaces, the seed
is the list of character codes, and keys, hashes and scripts are tagged
copies of their argument. -/
def sampleDeps : Deps :=
  { validateMnemonic := fun m => (m.data.filter (fun c => c == ' ')).length == 11
    mnemonicToSeed := fun m => .ok (m.data.map Char.toNat)
    derivePubkey := fun k => .ok (2 :: k)
    shaRmd160 := fun k => .ok (k.take 20)
    p2pkh := fun h => 0x76 :: 0xa9 :: h
    addressOfScript := fun _ => .ok "ecash:qsample"
    scriptFromAddress := fun a => if a.startsWith "ecash:" then .ok [0x76, 0xa9] else .error "bad address"
    toHex := fun b => String.join (b.map toString)
    signAndSerialize := fun r _ _ => .ok (toString r.inputs.length) }

/-- A populated wallet state, used to evaluate the model on concrete inputs. -/
def sampleWallet : WalletState :=
  { mnemonic := some "abandon ability able about above absent absorb abstract absurd abuse access accident"
    privateKey := some [1, 2, 3], publicKey := some [2, 1, 2, 3], pkHash := some [9, 9],
    address := some "ecash:qsample", balance := 5000, initialized := true }

/-- A world around `sampleWallet` with a registered callback and no transport. -/
def sampleWorld : World :=
  { wallet := sampleWallet, storage := sampleWallet.mnemonic, ws := none,
    balanceUpdateCallback := some 7, liveTransports := [], nextTransport := 0, log := [] }

/-- Three UTXOs in indexer order, the middle one carrying a token. -/
def sampleUtxos : List Utxo :=
  [ { txid := "aa", outIdx := 0, sats := 1500, token := none },
    { txid := "bb", outIdx := 1, sats := 546, token := some "SLP" },
    { txid := "cc", outIdx := 0, sats := 700, token := none } ]

/-- The wallet state is not partially valid: if `initialized` is set, then
`mnemonic`, `privateKey`, `publicKey`, `pkHash` and `address` are all set. -/
def WalletState.identityComplete (w : WalletState) : Bool :=
  !w.initialized ||
    (w.mnemonic.isSome && w.privateKey.isSome && w.publicKey.isSome && w.pkHash.isSome &&
      w.address.isSome)

/-- The five message kinds the `onMessage` handler reacts to. -/
def refreshKinds : List (Option String) :=
  [some "TX_ADDED_TO_MEMPOOL", some "TX_CONFIRMED", some "TX_FINALIZED",
   some "BLK_CONNECTED", some "BLK_FINALIZED"]

/-- Whether the `unsubscribeFromScript` and `close` calls a `start` or `stop`
may make both return without throwing. -/
def Op.teardownOk : Op → Bool
  | .startWebSocketSubscription unsubscribeOk closeOk _ _ _ => unsubscribeOk && closeOk
  | .stopWebSocketSubscription unsubscribeOk closeOk => unsubscribeOk && closeOk
  | _ => true

/-- The transport bookkeeping agrees with the handle: the live transports are
exactly the one `ws` points to, if any. -/
def World.transportsMatchHandle (s : World) : Bool :=
  s.liveTransports == s.ws.toList

/-- Two worlds with the same handle and the same live transports. -/
def World.sameTransports (s t : World) : Prop :=
  t.ws = s.ws ∧ t.liveTransports = s.liveTransports

/-! ## Properties of `updateBalance` -/

theorem toNumber_of_le (n : Nat) (h : n ≤ 2 ^ 53) : toNumber n = n := by
  rcases Nat.lt_or_eq_of_le h with hlt | heq
  · unfold toNumber
    rw [if_pos hlt]
  · subst heq
    decide

theorem sumSats_foldl (us : List Utxo) (a : Nat)
    (h : a + (us.map Utxo.sats).sum ≤ 2 ^ 53) :
    us.foldl (fun sum utxo => numberAdd sum (parseInt utxo.sats)) a
      = a + (us.map Utxo.sats).sum := by
  induction us generalizing a with
  | nil => simp
  | cons u rest ih =>
    simp only [List.map_cons, List.sum_cons] at h
    have h1 : parseInt u.sats = u.sats := toNumber_of_le _ (by omega)
    have h2 : numberAdd a (parseInt u.sats) = a + u.sats := by
      rw [h1]
      exact toNumber_of_le _ (by omega)
    simp only [List.foldl_cons, List.map_cons, List.sum_cons, h2]
    rw [ih (a + u.sats) (by omega)]
    omega

theorem sumSats_eq_sum (us : List Utxo) (h : (us.map Utxo.sats).sum ≤ 2 ^ 53) :
    sumSats us = (us.map Utxo.sats).sum := by
  have := sumSats_foldl us 0 (by omega)
  simpa [sumSats] using this

theorem totalBalanceOf_some_eq (us : List Utxo) :
    totalBalanceOf ⟨some us⟩ = sumSats (us.filter (fun u => u.token.isNone)) := by
  cases us with
  | nil => simp [totalBalanceOf, sumSats]
  | cons u rest => simp [totalBalanceOf, xecOnly]

theorem totalBalanceOf_some (us : List Utxo)
    (h : ((us.filter (fun u => u.token.isNone)).map Utxo.sats).sum ≤ 2 ^ 53) :
    totalBalanceOf ⟨some us⟩ = ((us.filter (fun u => u.token.isNone)).map Utxo.sats).sum := by
  rw [totalBalanceOf_some_eq, sumSats_eq_sum _ h]

theorem updateBalance_ready_ok (D : Deps) (s : World) (r : ScriptUtxos) (pkHash : Bytes)
    (haddr : truthyStr s.wallet.address = true) (hpk : s.wallet.pkHash = some pkHash) :
    updateBalance D (.settled (.ok r)) s
      = ((((s.emit .updateBalanceCall).emit (.utxosQuery (D.toHex pkHash))).setBalance
            (totalBalanceOf r)), totalBalanceOf r) := by
  simp [updateBalance, World.emit, World.setBalance, haddr, hpk]

/-- Whatever the query answers, the number `updateBalance` returns is the one
it has just stored in `walletState.balance`. -/
theorem updateBalance_snd_eq_balance (D : Deps) (q : RacedOutcome) (s : World) :
    (updateBalance D q s).1.wallet.balance = (updateBalance D q s).2 := by
  unfold updateBalance
  simp only []
  split
  · rfl
  · split
    · rfl
    · split <;> rfl

/-- C1 as stated fails: on an initialized wallet and the one-entry list whose
token-free entry holds `2^53 + 1` satoshis, `updateBalance` returns and stores
`2^53`, not the sum of the `sats` values, because `parseInt` rounds to the
nearest double. -/
theorem updateBalance_rounds_above_two_pow_53 :
    (updateBalance sampleDeps
        (.settled (.ok ⟨some [⟨"aa", 0, 9007199254740993, none⟩]⟩)) sampleWorld).2
      = 9007199254740992
    ∧ (updateBalance sampleDeps
        (.settled (.ok ⟨some [⟨"aa", 0, 9007199254740993, none⟩]⟩)) sampleWorld).2
      ≠ ((([⟨"aa", 0, 9007199254740993, none⟩] : List Utxo).filter
            (fun u => u.token.isNone)).map Utxo.sats).sum := by
  decide

/-- C1, amended: for an initialized wallet (flag set, address text and pkHash
present) and every UTXO list the indexer returns whose token-free `sats`
values sum to at most `2^53`, `updateBalance` returns the sum of the `sats`
of the entries without a token, stores that number in `walletState.balance`,
and a list with the same token-free entries gives the same result whatever
token-bearing entries it holds. -/
theorem updateBalance_sums_token_free (D : Deps) (s : World) (us : List Utxo)
    (hinit : s.wallet.initialized = true) (haddr : truthyStr s.wallet.address = true)
    (hpk : s.wallet.pkHash.isSome = true)
    (hbound : ((us.filter (fun u => u.token.isNone)).map Utxo.sats).sum ≤ 2 ^ 53) :
    (updateBalance D (.settled (.ok ⟨some us⟩)) s).2
        = ((us.filter (fun u => u.token.isNone)).map Utxo.sats).sum
    ∧ (updateBalance D (.settled (.ok ⟨some us⟩)) s).1.wallet.balance
        = ((us.filter (fun u => u.token.isNone)).map Utxo.sats).sum
    ∧ (updateBalance D (.settled (.ok ⟨some us⟩)) s).1.wallet.initialized = true
    ∧ ∀ us2 : List Utxo,
        us2.filter (fun u => u.token.isNone) = us.filter (fun u => u.token.isNone) →
        (updateBalance D (.settled (.ok ⟨some us2⟩)) s).2
          = (updateBalance D (.settled (.ok ⟨some us⟩)) s).2 := by
  obtain ⟨pkHash, hpk2⟩ := Option.isSome_iff_exists.mp hpk
  refine ⟨?_, ?_, ?_, ?_⟩
  · rw [updateBalance_ready_ok D s _ pkHash haddr hpk2, totalBalanceOf_some us hbound]
  · rw [updateBalance_ready_ok D s _ pkHash haddr hpk2, ← totalBalanceOf_some us hbound]
    rfl
  · rw [updateBalance_ready_ok D s _ pkHash haddr hpk2]
    exact hinit
  · intro us2 h2
    rw [updateBalance_ready_ok D s _ pkHash haddr hpk2,
      updateBalance_ready_ok D s _ pkHash haddr hpk2, totalBalanceOf_some_eq,
      totalBalanceOf_some_eq, h2]

theorem updateBalance_sums_token_free_witness :
    (updateBalance sampleDeps (.settled (.ok ⟨some sampleUtxos⟩)) sampleWorld).2 = 2200
    ∧ (updateBalance sampleDeps (.settled (.ok ⟨some sampleUtxos⟩)) sampleWorld).1.wallet.balance
        = 2200 := by
  have h := updateBalance_sums_token_free sampleDeps sampleWorld sampleUtxos rfl (by decide) rfl
    (by decide)
  refine ⟨?_, ?_⟩
  · rw [h.1]; decide
  · rw [h.2.1]; decide

/-- C6, evaluated on the code: on the freshly loaded module (no wallet),
`updateBalance` does not fail: the `'Wallet not initialized'` error thrown by
its guard is caught by its own outer `catch`, and the call returns `0`, stores
`0` and queries nothing, whatever the indexer would have answered. -/
theorem updateBalance_uninitialized_returns_zero (D : Deps) (q : RacedOutcome)
    (stored : Option String) :
    updateBalance D q (initialWorld stored)
      = ({ initialWorld stored with log := [Event.updateBalanceCall] }, 0) := by
  rfl

/-- C7: for an initialized wallet, a failed or timed-out UTXO query makes
`updateBalance` return `0` and store `0`; nothing else in the module state
changes apart from the call log. -/
theorem updateBalance_query_failure_zero (D : Deps) (s : World) (q : RacedOutcome)
    (pkHash : Bytes)
    (hinit : s.wallet.initialized = true) (haddr : truthyStr s.wallet.address = true)
    (hpk : s.wallet.pkHash = some pkHash)
    (hq : q = .timedOut ∨ ∃ msg, q = .settled (.failed msg)) :
    (updateBalance D q s).2 = 0
    ∧ (updateBalance D q s).1.wallet = { s.wallet with balance := 0 }
    ∧ (updateBalance D q s).1.wallet.initialized = true
    ∧ (updateBalance D q s).1
        = { s with wallet := { s.wallet with balance := 0 },
                   log := s.log ++ [.updateBalanceCall, .utxosQuery (D.toHex pkHash)] } := by
  have key : updateBalance D q s
      = ({ s with wallet := { s.wallet with balance := 0 },
                  log := s.log ++ [.updateBalanceCall, .utxosQuery (D.toHex pkHash)] }, 0) := by
    rcases hq with rfl | ⟨msg, rfl⟩ <;>
      simp [updateBalance, World.emit, World.setBalance, haddr, hpk]
  rw [key]
  exact ⟨rfl, rfl, hinit, rfl⟩

theorem updateBalance_query_failure_zero_witness :
    (updateBalance sampleDeps .timedOut sampleWorld).2 = 0
    ∧ (updateBalance sampleDeps (.settled (.failed "503")) sampleWorld).1.wallet
        = { sampleWallet with balance := 0 } :=
  ⟨(updateBalance_query_failure_zero sampleDeps sampleWorld .timedOut [9, 9] rfl (by decide) rfl
      (Or.inl rfl)).1,
   (updateBalance_query_failure_zero sampleDeps sampleWorld (.settled (.failed "503")) [9, 9] rfl
      (by decide) rfl (Or.inr ⟨"503", rfl⟩)).2.1⟩

/-! ## Properties of `sendTransaction` -/

/-- The selection loop, started below the target, stops after the first `n`
entries, where `n` is the first count whose running total reaches the target,
or the whole list if none does. -/
theorem selectLoop_spec (target : Int) :
    ∀ (us sel : List Utxo) (tot : Int), tot < target →
      ∃ n, n ≤ us.length ∧
        selectLoop target us sel tot
          = (sel ++ us.take n, tot + (((us.take n).map Utxo.sats).sum : Nat)) ∧
        (∀ k, k < n → tot + (((us.take k).map Utxo.sats).sum : Nat) < target) ∧
        (tot + (((us.take n).map Utxo.sats).sum : Nat) < target → n = us.length) ∧
        (us ≠ [] → 0 < n) := by
  intro us
  induction us with
  | nil =>
    intro sel tot _
    exact ⟨0, le_refl _, by simp [selectLoop], by intro k hk; omega, by simp, by simp⟩
  | cons u rest ih =>
    intro sel tot htot
    by_cases hreach : tot + (u.sats : Int) ≥ target
    · refine ⟨1, by simp, ?_, ?_, ?_, by simp⟩
      · simp [selectLoop, hreach]
      · intro k hk
        have hk0 : k = 0 := by omega
        subst hk0
        simpa using htot
      · intro hlt
        simp at hlt
        omega
    · have hlt : tot + (u.sats : Int) < target := by omega
      obtain ⟨n, hn, hrun, hbelow, hall, _⟩ := ih (sel ++ [u]) (tot + (u.sats : Int)) hlt
      refine ⟨n + 1, by simpa using hn, ?_, ?_, ?_, by simp⟩
      · simp only [selectLoop, hreach, if_false, hrun]
        simp [List.take_succ_cons, add_assoc]
      · intro k hk
        cases k with
        | zero => simpa using htot
        | succ j =>
          have hj := hbelow j (by omega)
          simp only [List.take_succ_cons, List.map_cons, List.sum_cons, Nat.cast_add]
          omega
      · intro hfin
        simp only [List.take_succ_cons, List.map_cons, List.sum_cons, Nat.cast_add] at hfin
        have := hall (by omega)
        simp [this]

theorem sum_take_le (us : List Utxo) (n : Nat) :
    ((us.take n).map Utxo.sats).sum ≤ (us.map Utxo.sats).sum := by
  induction us generalizing n with
  | nil => simp
  | cons u rest ih =>
    cases n with
    | zero => simp
    | succ m =>
      simp only [List.take_succ_cons, List.map_cons, List.sum_cons]
      have := ih m
      omega

/-- What `selectInputs` returns, in terms of the token-free UTXOs `xs` and the
target `amount + 1000`. -/
theorem selectInputs_spec (amount : Int) (us : List Utxo) (hpos : 0 < amount)
    (hne : xecOnly us ≠ []) :
    ∃ n, 0 < n ∧ n ≤ (xecOnly us).length ∧
      (∀ k, k < n → ((((xecOnly us).take k).map Utxo.sats).sum : Nat) < amount + 1000) ∧
      ((((((xecOnly us).take n).map Utxo.sats).sum : Nat) : Int) < amount + 1000 →
        n = (xecOnly us).length ∧
        selectInputs amount us = .error (.insufficientXecFunds (amount + 1000)
          ((((xecOnly us).map Utxo.sats).sum : Nat) : Int))) ∧
      (amount + 1000 ≤ (((((xecOnly us).take n).map Utxo.sats).sum : Nat) : Int) →
        selectInputs amount us = .ok ((xecOnly us).take n)) := by
  obtain ⟨n, hn, hrun, hbelow, hall, hpos2⟩ :=
    selectLoop_spec (amount + manualFeeEstimate) (xecOnly us) [] 0
      (by simp [manualFeeEstimate]; omega)
  have hlen : ¬ (xecOnly us).length = 0 := by
    intro h
    exact hne (List.length_eq_zero.mp h)
  simp only [manualFeeEstimate, zero_add, List.nil_append] at hrun hbelow hall
  refine ⟨n, hpos2 hne, hn, hbelow, ?_, ?_⟩
  · intro hlt
    have hn2 := hall hlt
    refine ⟨hn2, ?_⟩
    have htake : (xecOnly us).take n = xecOnly us := by
      rw [hn2]; exact List.take_length _
    rw [htake] at hrun hlt
    simp only [selectInputs, hlen, if_false, manualFeeEstimate, hrun, hlt, if_true]
  · intro hge
    have hnot : ¬ ((((((xecOnly us).take n).map Utxo.sats).sum : Nat) : Int) < amount + 1000) := by
      omega
    simp only [selectInputs, hlen, if_false, manualFeeEstimate, hrun, hnot]

/-- Past its three pre-checks and a non-empty answer of the indexer,
`sendTransaction` is the selection followed by assembly. -/
theorem sendTransaction_past_checks (D : Deps) (dest : String) (amount : Int)
    (us : List Utxo) (b : Except String String) (q2 : RacedOutcome) (s : World)
    (pkHash : Bytes) (hinit : s.wallet.initialized = true)
    (hpk : s.wallet.pkHash = some pkHash) (hpos : 0 < amount)
    (hbal : amount ≤ (s.wallet.balance : Int)) (hus : us ≠ []) :
    sendTransaction D dest amount (.ok ⟨some us⟩) b q2 s
      = match selectInputs amount us with
        | .error e => (s.emit (.utxosQuery (D.toHex pkHash)), .error e)
        | .ok sel =>
          assembleAndSend D dest amount pkHash sel b q2 (s.emit (.utxosQuery (D.toHex pkHash))) := by
  have h1 : ¬ amount ≤ 0 := by omega
  have h2 : ¬ amount > (s.wallet.balance : Int) := by omega
  have h3 : ¬ us.length = 0 := fun h => hus (List.length_eq_zero.mp h)
  simp only [sendTransaction, hinit, hpk, h1, h2, h3, if_false, Bool.not_true, Bool.false_eq_true]

/-- Assembly and broadcast never end in the module's own insufficient-funds
error. -/
theorem assembleAndSend_not_insufficient (D : Deps) (dest : String) (amount : Int)
    (pkHash : Bytes) (sel : List Utxo) (b : Except String String) (q2 : RacedOutcome)
    (s : World) (need have_ : Int) :
    (assembleAndSend D dest amount pkHash sel b q2 s).2
      ≠ .error (.insufficientXecFunds need have_) := by
  unfold assembleAndSend
  split
  · simp
  · split
    · simp
    · split <;> simp

/-- C2: for an initialized wallet, a positive amount within the cached
balance and a UTXO list with at least one token-free entry, `sendTransaction`
ends in the insufficient-XEC-funds error exactly when the sum of all token-free
values is below `amount + 1000`; in that case the only call made is the UTXO
query (nothing is broadcast), otherwise the call continues with transaction
assembly on the selected inputs. -/
theorem sendTransaction_insufficient_iff (D : Deps) (dest : String) (amount : Int)
    (us : List Utxo) (b : Except String String) (q2 : RacedOutcome) (s : World)
    (pkHash : Bytes) (hinit : s.wallet.initialized = true)
    (hpk : s.wallet.pkHash = some pkHash) (hpos : 0 < amount)
    (hbal : amount ≤ (s.wallet.balance : Int)) (hfree : ∃ u ∈ us, u.token = none) :
    ((∃ need have_, (sendTransaction D dest amount (.ok ⟨some us⟩) b q2 s).2
          = .error (.insufficientXecFunds need have_))
        ↔ ((((us.filter (fun u => u.token.isNone)).map Utxo.sats).sum : Nat) : Int)
            < amount + 1000)
    ∧ (((((us.filter (fun u => u.token.isNone)).map Utxo.sats).sum : Nat) : Int)
          < amount + 1000 →
        sendTransaction D dest amount (.ok ⟨some us⟩) b q2 s
          = (s.emit (.utxosQuery (D.toHex pkHash)),
             .error (.insufficientXecFunds (amount + 1000)
               ((((us.filter (fun u => u.token.isNone)).map Utxo.sats).sum : Nat) : Int))))
    ∧ (amount + 1000
          ≤ ((((us.filter (fun u => u.token.isNone)).map Utxo.sats).sum : Nat) : Int) →
        ∃ sel, selectInputs amount us = .ok sel ∧
          sendTransaction D dest amount (.ok ⟨some us⟩) b q2 s
            = assembleAndSend D dest amount pkHash sel b q2
                (s.emit (.utxosQuery (D.toHex pkHash)))) := by
  obtain ⟨u, hu, htok⟩ := hfree
  have hus : us ≠ [] := List.ne_nil_of_mem hu
  have hx : xecOnly us ≠ [] := by
    apply List.ne_nil_of_mem (a := u)
    simp [xecOnly, hu, htok]
  have hpast := sendTransaction_past_checks D dest amount us b q2 s pkHash hinit hpk hpos hbal hus
  obtain ⟨n, _, _, _, hlow, hhigh⟩ := selectInputs_spec amount us hpos hx
  have hle := sum_take_le (xecOnly us) n
  have hfold : us.filter (fun u => u.token.isNone) = xecOnly us := rfl
  rw [hfold]
  have low : ((((xecOnly us).map Utxo.sats).sum : Nat) : Int) < amount + 1000 →
      sendTransaction D dest amount (.ok ⟨some us⟩) b q2 s
        = (s.emit (.utxosQuery (D.toHex pkHash)),
           .error (.insufficientXecFunds (amount + 1000)
             ((((xecOnly us).map Utxo.sats).sum : Nat) : Int))) := by
    intro hlt
    have hsel := (hlow (by omega)).2
    rw [hpast, hsel]
  have high : amount + 1000 ≤ ((((xecOnly us).map Utxo.sats).sum : Nat) : Int) →
      ∃ sel, selectInputs amount us = .ok sel ∧
        sendTransaction D dest amount (.ok ⟨some us⟩) b q2 s
          = assembleAndSend D dest amount pkHash sel b q2
              (s.emit (.utxosQuery (D.toHex pkHash))) := by
    intro hge
    have hreach : amount + 1000 ≤ (((((xecOnly us).take n).map Utxo.sats).sum : Nat) : Int) := by
      by_contra hcon
      have hn := (hlow (by omega)).1
      have htake : (xecOnly us).take n = xecOnly us := by
        rw [hn]; exact List.take_length _
      rw [htake] at hcon
      exact hcon hge
    refine ⟨(xecOnly us).take n, hhigh hreach, ?_⟩
    rw [hpast, hhigh hreach]
  refine ⟨⟨?_, ?_⟩, low, high⟩
  · rintro ⟨need, have_, herr⟩
    by_contra hcon
    obtain ⟨sel, _, hrun⟩ := high (by omega)
    rw [hrun] at herr
    exact assembleAndSend_not_insufficient D dest amount pkHash sel b q2 _ need have_ herr
  · intro hlt
    exact ⟨_, _, by rw [low hlt]⟩

theorem sendTransaction_insufficient_iff_witness :
    sendTransaction sampleDeps "ecash:qdest" 1201 (.ok ⟨some sampleUtxos⟩) (.ok "txid")
        .timedOut sampleWorld
      = (sampleWorld.emit (.utxosQuery (sampleDeps.toHex [9, 9])),
         .error (.insufficientXecFunds 2201 2200))
    ∧ ∃ sel, selectInputs 1200 sampleUtxos = .ok sel ∧
        sendTransaction sampleDeps "ecash:qdest" 1200 (.ok ⟨some sampleUtxos⟩) (.ok "txid")
            .timedOut sampleWorld
          = assembleAndSend sampleDeps "ecash:qdest" 1200 [9, 9] sel (.ok "txid") .timedOut
              (sampleWorld.emit (.utxosQuery (sampleDeps.toHex [9, 9]))) :=
  ⟨(sendTransaction_insufficient_iff sampleDeps "ecash:qdest" 1201 sampleUtxos (.ok "txid")
      .timedOut sampleWorld [9, 9] rfl rfl (by decide) (by decide)
      ⟨_, List.mem_cons_self _ _, rfl⟩).2.1 (by decide),
   (sendTransaction_insufficient_iff sampleDeps "ecash:qdest" 1200 sampleUtxos (.ok "txid")
      .timedOut sampleWorld [9, 9] rfl rfl (by decide) (by decide)
      ⟨_, List.mem_cons_self _ _, rfl⟩).2.2 (by decide)⟩

/-- C3: when the selection of `sendTransaction` succeeds (for the positive
amount the pre-checks let through), the selected inputs are a non-empty prefix
of the token-free UTXOs in indexer order, hold no token-bearing entry, sum to
at least `amount + 1000`, fall below `amount + 1000` without their last
element, and no prefix of the token-free UTXOs that reaches `amount + 1000`
is shorter. -/
theorem selectInputs_shortest_reaching (amount : Int) (us sel : List Utxo)
    (hpos : 0 < amount) (hsel : selectInputs amount us = .ok sel) :
    sel <+: us.filter (fun u => u.token.isNone)
    ∧ sel ≠ []
    ∧ (∀ u ∈ sel, u.token = none)
    ∧ amount + 1000 ≤ (((sel.map Utxo.sats).sum : Nat) : Int)
    ∧ (((sel.dropLast.map Utxo.sats).sum : Nat) : Int) < amount + 1000
    ∧ ∀ p : List Utxo, p <+: us.filter (fun u => u.token.isNone) →
        amount + 1000 ≤ (((p.map Utxo.sats).sum : Nat) : Int) → sel.length ≤ p.length := by
  have hfold : us.filter (fun u => u.token.isNone) = xecOnly us := rfl
  rw [hfold]
  have hx : xecOnly us ≠ [] := by
    intro hnil
    simp [selectInputs, hnil] at hsel
  obtain ⟨n, hn0, hn, hbelow, hlow, hhigh⟩ := selectInputs_spec amount us hpos hx
  have hreach : amount + 1000 ≤ (((((xecOnly us).take n).map Utxo.sats).sum : Nat) : Int) := by
    by_contra hcon
    have herr := (hlow (by omega)).2
    rw [herr] at hsel
    cases hsel
  have hseleq : sel = (xecOnly us).take n := by
    have h := hhigh hreach
    rw [h] at hsel
    exact (Except.ok.inj hsel).symm
  have hlen : sel.length = n := by
    rw [hseleq, List.length_take]
    omega
  refine ⟨?_, ?_, ?_, ?_, ?_, ?_⟩
  · rw [hseleq]
    exact List.take_prefix n (xecOnly us)
  · intro hnil
    rw [hnil] at hlen
    simp at hlen
    omega
  · intro u hu
    rw [hseleq] at hu
    have hmem : u ∈ xecOnly us := List.mem_of_mem_take hu
    have := (List.mem_filter.mp hmem).2
    simpa using this
  · rw [hseleq]
    exact hreach
  · have hdrop : sel.dropLast = (xecOnly us).take (n - 1) := by
      rw [List.dropLast_eq_take, hlen, hseleq, List.take_take]
      congr 1
      omega
    rw [hdrop]
    exact hbelow (n - 1) (by omega)
  · intro p hp hsum
    by_contra hshort
    have hpeq : p = (xecOnly us).take p.length := List.prefix_iff_eq_take.mp hp
    have := hbelow p.length (by omega)
    rw [← hpeq] at this
    omega

theorem selectInputs_shortest_reaching_witness :
    selectInputs 1000 sampleUtxos = .ok [⟨"aa", 0, 1500, none⟩, ⟨"cc", 0, 700, none⟩]
    ∧ (1000 : Int) + 1000 ≤ ((([⟨"aa", 0, 1500, none⟩, ⟨"cc", 0, 700, none⟩].map
          Utxo.sats).sum : Nat) : Int)
    ∧ (((([⟨"aa", 0, 1500, none⟩, ⟨"cc", 0, 700, none⟩] : List Utxo).dropLast.map
          Utxo.sats).sum : Nat) : Int) < 1000 + 1000 :=
  ⟨rfl,
   (selectInputs_shortest_reaching 1000 sampleUtxos
      [⟨"aa", 0, 1500, none⟩, ⟨"cc", 0, 700, none⟩] (by decide) rfl).2.2.2.1,
   (selectInputs_shortest_reaching 1000 sampleUtxos
      [⟨"aa", 0, 1500, none⟩, ⟨"cc", 0, 700, none⟩] (by decide) rfl).2.2.2.2.1⟩

/-- C4: `sendTransaction` checks, in this order, that the wallet is
initialized, that the amount is positive and that it does not exceed the
cached balance, each with its own error; in all three cases the module state,
call log included, is returned untouched, so no query and no broadcast is
made. -/
theorem sendTransaction_prechecks (D : Deps) (dest : String) (amount : Int)
    (q : QueryOutcome) (b : Except String String) (q2 : RacedOutcome) (s : World) :
    (s.wallet.initialized = false →
        sendTransaction D dest amount q b q2 s = (s, .error .walletNotInitialized))
    ∧ (s.wallet.initialized = true → amount ≤ 0 →
        sendTransaction D dest amount q b q2 s = (s, .error .amountNotPositive))
    ∧ (s.wallet.initialized = true → 0 < amount → (s.wallet.balance : Int) < amount →
        sendTransaction D dest amount q b q2 s = (s, .error .insufficientFunds))
    ∧ WalletError.walletNotInitialized ≠ WalletError.amountNotPositive
    ∧ WalletError.amountNotPositive ≠ WalletError.insufficientFunds
    ∧ WalletError.walletNotInitialized ≠ WalletError.insufficientFunds := by
  refine ⟨?_, ?_, ?_, by decide, by decide, by decide⟩
  · intro h
    simp [sendTransaction, h]
  · intro h hle
    simp [sendTransaction, h, hle]
  · intro h hpos hgt
    have h1 : ¬ amount ≤ 0 := by omega
    simp [sendTransaction, h, h1, hgt]

theorem sendTransaction_prechecks_witness :
    sendTransaction sampleDeps "ecash:qdest" (-5) (.failed "unused") (.ok "txid") .timedOut
        (initialWorld none) = (initialWorld none, .error .walletNotInitialized)
    ∧ sendTransaction sampleDeps "ecash:qdest" (-5) (.failed "unused") (.ok "txid") .timedOut
        sampleWorld = (sampleWorld, .error .amountNotPositive)
    ∧ sendTransaction sampleDeps "ecash:qdest" 5001 (.failed "unused") (.ok "txid") .timedOut
        sampleWorld = (sampleWorld, .error .insufficientFunds) :=
  ⟨(sendTransaction_prechecks sampleDeps "ecash:qdest" (-5) (.failed "unused") (.ok "txid")
      .timedOut (initialWorld none)).1 rfl,
   (sendTransaction_prechecks sampleDeps "ecash:qdest" (-5) (.failed "unused") (.ok "txid")
      .timedOut sampleWorld).2.1 rfl (by decide),
   (sendTransaction_prechecks sampleDeps "ecash:qdest" 5001 (.failed "unused") (.ok "txid")
      .timedOut sampleWorld).2.2.1 rfl (by decide) (by decide)⟩

/-! ## Properties of loading and importing -/

/-- C5: a phrase that fails validation (for `importWallet`, after the
white-space clean-up) makes `importWallet` and `loadWalletFromMnemonic` throw
their invalid-mnemonic error and return the module state, stored phrase
included, exactly as it was. -/
theorem invalid_mnemonic_leaves_state (D : Deps) (mnemonic : String) (q : RacedOutcome)
    (s : World) :
    (D.validateMnemonic (cleanMnemonic mnemonic) = false →
        importWallet D mnemonic q s = (s, .error .invalidMnemonicImport))
    ∧ (D.validateMnemonic mnemonic = false →
        loadWalletFromMnemonic D mnemonic q s = (s, .error .invalidMnemonic)) := by
  constructor
  · intro h
    simp [importWallet, h]
  · intro h
    simp [loadWalletFromMnemonic, deriveWalletState, h]

theorem invalid_mnemonic_leaves_state_witness :
    importWallet sampleDeps "  only   three\twords \n" .timedOut sampleWorld
        = (sampleWorld, .error .invalidMnemonicImport)
    ∧ loadWalletFromMnemonic sampleDeps "only three words" .timedOut sampleWorld
        = (sampleWorld, .error .invalidMnemonic) :=
  ⟨(invalid_mnemonic_leaves_state sampleDeps "  only   three\twords \n" .timedOut sampleWorld).1
      (by decide),
   (invalid_mnemonic_leaves_state sampleDeps "only three words" .timedOut sampleWorld).2
      (by decide)⟩

/-! ## Properties of the message handler -/

/-- The shapes `updateBalance` can leave the module state in: only the balance
and the call log change, and the log grows by one entry call followed by at
most one query. -/
theorem updateBalance_frame (D : Deps) (q : RacedOutcome) (s : World) :
    ∃ queries : List Event, (∀ e ∈ queries, ∃ h, e = Event.utxosQuery h) ∧
      (updateBalance D q s).1
        = { s with wallet := { s.wallet with balance := (updateBalance D q s).2 },
                   log := s.log ++ [Event.updateBalanceCall] ++ queries } := by
  unfold updateBalance
  simp only []
  split
  · exact ⟨[], by simp, by simp [World.emit, World.setBalance]⟩
  · split
    · exact ⟨[], by simp, by simp [World.emit, World.setBalance]⟩
    · rename_i pkHash _
      refine ⟨[Event.utxosQuery (D.toHex pkHash)], by simp, ?_⟩
      split <;> simp [World.emit, World.setBalance]

/-- C8: a message whose `msgType` is one of the five refresh kinds makes the
handler call `updateBalance` exactly once and then, if a callback is
registered, call it exactly once with the balance that refresh returned: the
call log grows by one `updateBalance` entry, its queries, and then the
callback entry.  Any other `msgType`, a missing one included, leaves the
module state and the call log untouched. -/
theorem onMessage_refresh_then_notify (D : Deps) (msgType : Option String)
    (q1 q2 q3 : RacedOutcome) (s : World) :
    (msgType ∈ refreshKinds →
      ∃ q ∈ [q1, q2, q3], ∃ queries : List Event,
        (∀ e ∈ queries, ∃ h, e = Event.utxosQuery h) ∧
        (onMessage D msgType q1 q2 q3 s).log
          = s.log ++ [Event.updateBalanceCall] ++ queries ++
              (match s.balanceUpdateCallback with
               | some cb => [Event.callback cb (updateBalance D q s).2]
               | none => []) ∧
        (onMessage D msgType q1 q2 q3 s).wallet = (updateBalance D q s).1.wallet ∧
        (onMessage D msgType q1 q2 q3 s).wallet.balance = (updateBalance D q s).2)
    ∧ (msgType ∉ refreshKinds → onMessage D msgType q1 q2 q3 s = s) := by
  have body : ∀ q, ∃ queries : List Event,
      (∀ e ∈ queries, ∃ h, e = Event.utxosQuery h) ∧
      (refreshAndNotify D q s).log
        = s.log ++ [Event.updateBalanceCall] ++ queries ++
            (match s.balanceUpdateCallback with
             | some cb => [Event.callback cb (updateBalance D q s).2]
             | none => []) ∧
      (refreshAndNotify D q s).wallet = (updateBalance D q s).1.wallet ∧
      (refreshAndNotify D q s).wallet.balance = (updateBalance D q s).2 := by
    intro q
    obtain ⟨queries, hq, hframe⟩ := updateBalance_frame D q s
    refine ⟨queries, hq, ?_⟩
    have hcb : (updateBalance D q s).1.balanceUpdateCallback = s.balanceUpdateCallback := by
      rw [hframe]
    have hlog : (updateBalance D q s).1.log = s.log ++ [Event.updateBalanceCall] ++ queries := by
      rw [hframe]
    have hbal := updateBalance_snd_eq_balance D q s
    unfold refreshAndNotify
    simp only [hcb]
    cases hc : s.balanceUpdateCallback with
    | none => simp [hlog, hbal]
    | some cb => simp [World.emit, hlog, hbal]
  constructor
  · intro hmem
    simp only [refreshKinds, List.mem_cons, List.mem_singleton, List.not_mem_nil, or_false] at hmem
    rcases hmem with h | h | h | h | h
    · obtain ⟨queries, hq⟩ := body q1
      exact ⟨q1, by simp, queries, by simpa [onMessage, h] using hq⟩
    · obtain ⟨queries, hq⟩ := body q1
      exact ⟨q1, by simp, queries, by simpa [onMessage, h] using hq⟩
    · obtain ⟨queries, hq⟩ := body q2
      exact ⟨q2, by simp, queries, by simpa [onMessage, h] using hq⟩
    · obtain ⟨queries, hq⟩ := body q3
      exact ⟨q3, by simp, queries, by simpa [onMessage, h] using hq⟩
    · obtain ⟨queries, hq⟩ := body q3
      exact ⟨q3, by simp, queries, by simpa [onMessage, h] using hq⟩
  · intro hmem
    simp only [refreshKinds, List.mem_cons, List.mem_singleton, List.not_mem_nil, or_false,
      not_or] at hmem
    obtain ⟨h1, h2, h3, h4, h5⟩ := hmem
    simp [onMessage, h1, h2, h3, h4, h5]

theorem onMessage_refresh_then_notify_witness :
    (onMessage sampleDeps (some "TX_CONFIRMED") (.settled (.ok ⟨some sampleUtxos⟩)) .timedOut
        .timedOut sampleWorld).log
      = [Event.updateBalanceCall, Event.utxosQuery (sampleDeps.toHex [9, 9]),
         Event.callback 7 2200]
    ∧ onMessage sampleDeps (some "TX_REMOVED_FROM_MEMPOOL") .timedOut .timedOut .timedOut
        sampleWorld = sampleWorld
    ∧ onMessage sampleDeps none .timedOut .timedOut .timedOut sampleWorld = sampleWorld :=
  ⟨by decide,
   (onMessage_refresh_then_notify sampleDeps (some "TX_REMOVED_FROM_MEMPOOL") .timedOut
      .timedOut .timedOut sampleWorld).2 (by decide),
   (onMessage_refresh_then_notify sampleDeps none .timedOut .timedOut .timedOut
      sampleWorld).2 (by decide)⟩

/-! ## The wallet state is never partially valid -/

theorem updateBalance_identityComplete (D : Deps) (q : RacedOutcome) (s : World)
    (h : s.wallet.identityComplete = true) :
    (updateBalance D q s).1.wallet.identityComplete = true := by
  obtain ⟨queries, _, hframe⟩ := updateBalance_frame D q s
  rw [hframe]
  exact h

theorem deriveWalletState_identityComplete (D : Deps) (mnemonic : String) (w : WalletState)
    (h : deriveWalletState D mnemonic = .ok w) : w.identityComplete = true := by
  unfold deriveWalletState at h
  split at h
  · cases h
  · cases h1 : D.mnemonicToSeed mnemonic with
    | error e => simp [h1, liftDep, bind, Except.bind] at h
    | ok seed =>
      cases h2 : D.derivePubkey (seed.take 32) with
      | error e => simp [h1, h2, liftDep, bind, Except.bind] at h
      | ok publicKey =>
        cases h3 : D.shaRmd160 publicKey with
        | error e => simp [h1, h2, h3, liftDep, bind, Except.bind] at h
        | ok pkHash =>
          cases h4 : D.addressOfScript (D.p2pkh pkHash) with
          | error e => simp [h1, h2, h3, h4, liftDep, bind, Except.bind] at h
          | ok address =>
            simp [h1, h2, h3, h4, liftDep, bind, Except.bind, pure, Except.pure] at h
            subst h
            rfl

theorem loadWalletFromMnemonic_identityComplete (D : Deps) (mnemonic : String)
    (q : RacedOutcome) (s : World) (h : s.wallet.identityComplete = true) :
    (loadWalletFromMnemonic D mnemonic q s).1.wallet.identityComplete = true := by
  unfold loadWalletFromMnemonic
  cases hd : deriveWalletState D mnemonic with
  | error e => exact h
  | ok w =>
    exact updateBalance_identityComplete D q _ (deriveWalletState_identityComplete D mnemonic w hd)

theorem assembleAndSend_identityComplete (D : Deps) (dest : String) (amount : Int)
    (pkHash : Bytes) (sel : List Utxo) (b : Except String String) (q2 : RacedOutcome)
    (s : World) (h : s.wallet.identityComplete = true) :
    (assembleAndSend D dest amount pkHash sel b q2 s).1.wallet.identityComplete = true := by
  unfold assembleAndSend
  split
  · exact h
  · split
    · exact h
    · split
      · exact h
      · exact updateBalance_identityComplete D q2 _ h

theorem sendTransaction_identityComplete (D : Deps) (dest : String) (amount : Int)
    (q : QueryOutcome) (b : Except String String) (q2 : RacedOutcome) (s : World)
    (h : s.wallet.identityComplete = true) :
    (sendTransaction D dest amount q b q2 s).1.wallet.identityComplete = true := by
  unfold sendTransaction
  split
  · exact h
  · split
    · exact h
    · split
      · exact h
      · split
        · exact h
        · split
          · exact h
          · split
            · exact h
            · split
              · exact h
              · split
                · exact h
                · exact assembleAndSend_identityComplete D dest amount _ _ b q2 _ h

theorem stopWebSocketSubscription_wallet (u c : Bool) (s : World) :
    (stopWebSocketSubscription u c s).wallet = s.wallet := by
  unfold stopWebSocketSubscription
  split
  · rfl
  · split
    · rfl
    · split <;> rfl

theorem startWebSocketSubscription_wallet (u c o sb bl : Bool) (s : World) :
    (startWebSocketSubscription u c o sb bl s).1.wallet = s.wallet := by
  unfold startWebSocketSubscription
  split
  · rfl
  · simp only []
    have hstop : (if s.ws.isSome = true then stopWebSocketSubscription u c s else s).wallet
        = s.wallet := by
      split
      · exact stopWebSocketSubscription_wallet u c s
      · rfl
    split
    · exact hstop
    · split <;> exact hstop

theorem refreshAndNotify_identityComplete (D : Deps) (q : RacedOutcome) (s : World)
    (h : s.wallet.identityComplete = true) :
    (refreshAndNotify D q s).wallet.identityComplete = true := by
  have hu := updateBalance_identityComplete D q s h
  unfold refreshAndNotify
  simp only []
  split
  · exact hu
  · exact hu

theorem onMessage_identityComplete (D : Deps) (msgType : Option String)
    (q1 q2 q3 : RacedOutcome) (s : World) (h : s.wallet.identityComplete = true) :
    (onMessage D msgType q1 q2 q3 s).wallet.identityComplete = true := by
  unfold onMessage
  simp only []
  have step1 : ∀ (c : Prop) [Decidable c] (q : RacedOutcome) (t : World),
      t.wallet.identityComplete = true →
      (if c then refreshAndNotify D q t else t).wallet.identityComplete = true := by
    intro c _ q t ht
    split
    · exact refreshAndNotify_identityComplete D q t ht
    · exact ht
  exact step1 _ q3 _ (step1 _ q2 _ (step1 _ q1 _ h))

theorem step_identityComplete (D : Deps) (s : World) (op : Op)
    (h : s.wallet.identityComplete = true) : (step D s op).wallet.identityComplete = true := by
  cases op with
  | initializeWallet q =>
    simp only [step, initializeWallet]
    split
    · split
      · exact loadWalletFromMnemonic_identityComplete D _ q s h
      · exact h
    · exact h
  | createNewWallet g q =>
    simp only [step, createNewWallet]
    split
    · exact h
    · rename_i mnemonic
      have hl := loadWalletFromMnemonic_identityComplete D mnemonic q s h
      split
      · rename_i s2 e heq
        rw [heq] at hl
        exact hl
      · rename_i s2 w heq
        rw [heq] at hl
        exact hl
  | loadWalletFromMnemonic m q => exact loadWalletFromMnemonic_identityComplete D m q s h
  | importWallet m q =>
    simp only [step, importWallet]
    split
    · exact h
    · have hl := loadWalletFromMnemonic_identityComplete D (cleanMnemonic m) q s h
      split
      · rename_i s2 e heq
        rw [heq] at hl
        exact hl
      · rename_i s2 w heq
        rw [heq] at hl
        exact hl
  | updateBalance q => exact updateBalance_identityComplete D q s h
  | sendTransaction dest amount q b q2 =>
    exact sendTransaction_identityComplete D dest amount q b q2 s h
  | onBalanceUpdate cb => exact h
  | startWebSocketSubscription u c o sb bl =>
    simp only [step, startWebSocketSubscription_wallet]
    exact h
  | stopWebSocketSubscription u c =>
    simp only [step, stopWebSocketSubscription_wallet]
    exact h
  | onMessage t q1 q2 q3 => exact onMessage_identityComplete D t q1 q2 q3 s h

theorem run_identityComplete (D : Deps) (ops : List Op) :
    ∀ s : World, s.wallet.identityComplete = true →
      (run D s ops).wallet.identityComplete = true := by
  induction ops with
  | nil => intro s h; exact h
  | cons op rest ih =>
    intro s h
    exact ih (step D s op) (step_identityComplete D s op h)

/-- C9: in every state reached from the freshly loaded module by any sequence
of exported operations and delivered messages, whatever the collaborators and
the network answer and whether each call succeeds or throws,
`initialized = true` implies that `mnemonic`, `privateKey`, `publicKey`,
`pkHash` and `address` are all set. -/
theorem initialized_implies_identity_set (D : Deps) (stored : Option String) (ops : List Op) :
    (run D (initialWorld stored) ops).wallet.initialized = true →
      (run D (initialWorld stored) ops).wallet.mnemonic ≠ none
      ∧ (run D (initialWorld stored) ops).wallet.privateKey ≠ none
      ∧ (run D (initialWorld stored) ops).wallet.publicKey ≠ none
      ∧ (run D (initialWorld stored) ops).wallet.pkHash ≠ none
      ∧ (run D (initialWorld stored) ops).wallet.address ≠ none := by
  intro hinit
  have h := run_identityComplete D ops (initialWorld stored) rfl
  simp only [WalletState.identityComplete, hinit, Bool.not_true, Bool.false_or,
    Bool.and_eq_true] at h
  obtain ⟨⟨⟨⟨h1, h2⟩, h3⟩, h4⟩, h5⟩ := h
  exact ⟨Option.isSome_iff_ne_none.mp h1, Option.isSome_iff_ne_none.mp h2,
    Option.isSome_iff_ne_none.mp h3, Option.isSome_iff_ne_none.mp h4,
    Option.isSome_iff_ne_none.mp h5⟩

theorem initialized_implies_identity_set_witness :
    (run sampleDeps (initialWorld none)
        [.createNewWallet (.ok "a b c d e f g h i j k l") .timedOut,
         .sendTransaction "ecash:qdest" 10 (.failed "503") (.ok "txid") .timedOut,
         .importWallet "not a phrase" .timedOut]).wallet.initialized = true
    ∧ (run sampleDeps (initialWorld none)
        [.createNewWallet (.ok "a b c d e f g h i j k l") .timedOut,
         .sendTransaction "ecash:qdest" 10 (.failed "503") (.ok "txid") .timedOut,
         .importWallet "not a phrase" .timedOut]).wallet.address ≠ none :=
  ⟨by decide,
   (initialized_implies_identity_set sampleDeps none
      [.createNewWallet (.ok "a b c d e f g h i j k l") .timedOut,
       .sendTransaction "ecash:qdest" 10 (.failed "503") (.ok "txid") .timedOut,
       .importWallet "not a phrase" .timedOut] (by decide)).2.2.2.2⟩

/-! ## Live transports -/

/-- C10, evaluated on the code: a wallet is created and subscribed
(transport 0), another phrase is imported, which replaces `pkHash`, and
`startWebSocketSubscription` is called again.  Its nested stop asks the
transport to unsubscribe the new `pkHash`; that call throws, the `catch` of
`stopWebSocketSubscription` skips `ws.close()` and `ws = null`, and the start
goes on to create transport 1: two transports are then created and not
closed, and the handle to the first one is lost. -/
theorem restart_after_failed_unsubscribe_leaks :
    (run sampleDeps (initialWorld none)
        [.createNewWallet (.ok "a b c d e f g h i j k l") .timedOut,
         .startWebSocketSubscription true true true true true,
         .importWallet "l k j i h g f e d c b a" .timedOut,
         .startWebSocketSubscription false true true true true]).liveTransports = [0, 1]
    ∧ (run sampleDeps (initialWorld none)
        [.createNewWallet (.ok "a b c d e f g h i j k l") .timedOut,
         .startWebSocketSubscription true true true true true,
         .importWallet "l k j i h g f e d c b a" .timedOut,
         .startWebSocketSubscription false true true true true]).ws = some 1 := by
  decide

theorem updateBalance_sameTransports (D : Deps) (q : RacedOutcome) (s : World) :
    s.sameTransports (updateBalance D q s).1 := by
  obtain ⟨queries, _, hframe⟩ := updateBalance_frame D q s
  rw [hframe]
  exact ⟨rfl, rfl⟩

theorem loadWalletFromMnemonic_sameTransports (D : Deps) (mnemonic : String)
    (q : RacedOutcome) (s : World) :
    s.sameTransports (loadWalletFromMnemonic D mnemonic q s).1 := by
  unfold loadWalletFromMnemonic
  split
  · exact ⟨rfl, rfl⟩
  · rename_i w _
    exact updateBalance_sameTransports D q { s with wallet := w }

theorem assembleAndSend_sameTransports (D : Deps) (dest : String) (amount : Int)
    (pkHash : Bytes) (sel : List Utxo) (b : Except String String) (q2 : RacedOutcome)
    (s : World) : s.sameTransports (assembleAndSend D dest amount pkHash sel b q2 s).1 := by
  unfold assembleAndSend
  split
  · exact ⟨rfl, rfl⟩
  · split
    · exact ⟨rfl, rfl⟩
    · split
      · exact ⟨rfl, rfl⟩
      · rename_i rawTx _ _ _
        exact updateBalance_sameTransports D q2 (s.emit (.broadcast rawTx))

theorem sendTransaction_sameTransports (D : Deps) (dest : String) (amount : Int)
    (q : QueryOutcome) (b : Except String String) (q2 : RacedOutcome) (s : World) :
    s.sameTransports (sendTransaction D dest amount q b q2 s).1 := by
  unfold sendTransaction
  split
  · exact ⟨rfl, rfl⟩
  · split
    · exact ⟨rfl, rfl⟩
    · split
      · exact ⟨rfl, rfl⟩
      · split
        · exact ⟨rfl, rfl⟩
        · split
          · exact ⟨rfl, rfl⟩
          · split
            · exact ⟨rfl, rfl⟩
            · split
              · exact ⟨rfl, rfl⟩
              · split
                · exact ⟨rfl, rfl⟩
                · exact assembleAndSend_sameTransports D dest amount _ _ b q2 _

theorem refreshAndNotify_sameTransports (D : Deps) (q : RacedOutcome) (s : World) :
    s.sameTransports (refreshAndNotify D q s) := by
  have hu := updateBalance_sameTransports D q s
  unfold refreshAndNotify
  simp only []
  split
  · exact hu
  · exact hu

theorem onMessage_sameTransports (D : Deps) (msgType : Option String)
    (q1 q2 q3 : RacedOutcome) (s : World) :
    s.sameTransports (onMessage D msgType q1 q2 q3 s) := by
  have step1 : ∀ (c : Prop) [Decidable c] (q : RacedOutcome) (t : World),
      s.sameTransports t → s.sameTransports (if c then refreshAndNotify D q t else t) := by
    intro c _ q t ht
    split
    · have h := refreshAndNotify_sameTransports D q t
      exact ⟨h.1.trans ht.1, h.2.trans ht.2⟩
    · exact ht
  unfold onMessage
  exact step1 _ q3 _ (step1 _ q2 _ (step1 _ q1 _ ⟨rfl, rfl⟩))

theorem sameTransports_matchHandle (s t : World) (h : s.sameTransports t)
    (hs : s.transportsMatchHandle = true) : t.transportsMatchHandle = true := by
  simp only [World.transportsMatchHandle, beq_iff_eq] at hs ⊢
  rw [h.1, h.2]
  exact hs

theorem stopWebSocketSubscription_matchHandle (s : World)
    (hs : s.transportsMatchHandle = true) :
    (stopWebSocketSubscription true true s).transportsMatchHandle = true
    ∧ ((stopWebSocketSubscription true true s).ws = none ∨ s.ws = none) := by
  simp only [World.transportsMatchHandle, beq_iff_eq] at hs ⊢
  unfold stopWebSocketSubscription
  cases hws : s.ws with
  | none =>
    simp only [hws]
    rw [hws] at hs
    exact ⟨hs, Or.inr trivial⟩
  | some handle =>
    rw [hws] at hs
    simp [hs]

theorem startWebSocketSubscription_matchHandle (o sb bl : Bool) (s : World)
    (hs : s.transportsMatchHandle = true) :
    (startWebSocketSubscription true true o sb bl s).1.transportsMatchHandle = true := by
  unfold startWebSocketSubscription
  split
  · exact hs
  · have hmid : ∀ t : World, t.transportsMatchHandle = true → t.ws = none →
        ({ t with ws := some t.nextTransport,
                  liveTransports := t.liveTransports ++ [t.nextTransport],
                  nextTransport := t.nextTransport + 1 } : World).transportsMatchHandle
          = true := by
      intro t ht hnone
      simp only [World.transportsMatchHandle, beq_iff_eq] at ht ⊢
      rw [hnone] at ht
      simp [ht]
    have hstop := stopWebSocketSubscription_matchHandle s hs
    have hready :
        World.transportsMatchHandle
            (if s.ws.isSome = true then stopWebSocketSubscription true true s else s) = true
        ∧ World.ws (if s.ws.isSome = true then stopWebSocketSubscription true true s else s)
            = none := by
      cases hws : s.ws with
      | none => simp [hws, hs]
      | some handle =>
        simp only [Option.isSome_some, if_true]
        refine ⟨hstop.1, ?_⟩
        rcases hstop.2 with h | h
        · exact h
        · rw [hws] at h
          cases h
    simp only []
    split
    · exact hmid _ hready.1 hready.2
    · split <;> exact hmid _ hready.1 hready.2

theorem step_matchHandle (D : Deps) (s : World) (op : Op) (hok : op.teardownOk = true)
    (hs : s.transportsMatchHandle = true) : (step D s op).transportsMatchHandle = true := by
  cases op with
  | initializeWallet q =>
    refine sameTransports_matchHandle s _ ?_ hs
    simp only [step, initializeWallet]
    split
    · split
      · exact loadWalletFromMnemonic_sameTransports D _ q s
      · exact ⟨rfl, rfl⟩
    · exact ⟨rfl, rfl⟩
  | createNewWallet g q =>
    refine sameTransports_matchHandle s _ ?_ hs
    simp only [step, createNewWallet]
    split
    · exact ⟨rfl, rfl⟩
    · rename_i mnemonic
      have hl := loadWalletFromMnemonic_sameTransports D mnemonic q s
      split
      · rename_i s2 e heq
        rw [heq] at hl
        exact hl
      · rename_i s2 w heq
        rw [heq] at hl
        exact hl
  | loadWalletFromMnemonic m q =>
    exact sameTransports_matchHandle s _ (loadWalletFromMnemonic_sameTransports D m q s) hs
  | importWallet m q =>
    refine sameTransports_matchHandle s _ ?_ hs
    simp only [step, importWallet]
    split
    · exact ⟨rfl, rfl⟩
    · have hl := loadWalletFromMnemonic_sameTransports D (cleanMnemonic m) q s
      split
      · rename_i s2 e heq
        rw [heq] at hl
        exact hl
      · rename_i s2 w heq
        rw [heq] at hl
        exact hl
  | updateBalance q =>
    exact sameTransports_matchHandle s _ (updateBalance_sameTransports D q s) hs
  | sendTransaction dest amount q b q2 =>
    exact sameTransports_matchHandle s _
      (sendTransaction_sameTransports D dest amount q b q2 s) hs
  | onBalanceUpdate cb => exact hs
  | startWebSocketSubscription u c o sb bl =>
    simp only [Op.teardownOk, Bool.and_eq_true] at hok
    obtain ⟨rfl, rfl⟩ := hok
    exact startWebSocketSubscription_matchHandle o sb bl s hs
  | stopWebSocketSubscription u c =>
    simp only [Op.teardownOk, Bool.and_eq_true] at hok
    obtain ⟨rfl, rfl⟩ := hok
    exact (stopWebSocketSubscription_matchHandle s hs).1
  | onMessage t q1 q2 q3 =>
    exact sameTransports_matchHandle s _ (onMessage_sameTransports D t q1 q2 q3 s) hs

/-- As long as no `unsubscribeFromScript` and no `close` call throws, the live
transports are exactly the one behind `ws`, so there is at most one, whatever
`waitForOpen` and the subscribe calls do. -/
theorem at_most_one_transport_when_teardown_succeeds (D : Deps) (stored : Option String)
    (ops : List Op) (hok : ∀ op ∈ ops, op.teardownOk = true) :
    (run D (initialWorld stored) ops).liveTransports.length ≤ 1 := by
  have inv : ∀ (ops : List Op) (s : World), (∀ op ∈ ops, op.teardownOk = true) →
      s.transportsMatchHandle = true → (run D s ops).transportsMatchHandle = true := by
    intro ops
    induction ops with
    | nil => intro s _ hs; exact hs
    | cons op rest ih =>
      intro s hall hs
      exact ih (step D s op) (fun o ho => hall o (List.mem_cons_of_mem _ ho))
        (step_matchHandle D s op (hall op (List.mem_cons_self _ _)) hs)
  have h := inv ops (initialWorld stored) hok rfl
  simp only [World.transportsMatchHandle, beq_iff_eq] at h
  rw [h]
  cases (run D (initialWorld stored) ops).ws <;> simp

theorem at_most_one_transport_when_teardown_succeeds_witness :
    (run sampleDeps (initialWorld none)
        [.createNewWallet (.ok "a b c d e f g h i j k l") .timedOut,
         .startWebSocketSubscription true true true true true,
         .startWebSocketSubscription true true true true true,
         .stopWebSocketSubscription true true]).liveTransports.length ≤ 1 :=
  at_most_one_transport_when_teardown_succeeds sampleDeps none
    [.createNewWallet (.ok "a b c d e f g h i j k l") .timedOut,
     .startWebSocketSubscription true true true true true,
     .startWebSocketSubscription true true true true true,
     .stopWebSocketSubscription true true] (by decide)

end EcashWallet
